import Mathlib

/-!
Verification of the multi-account session orchestration engine
(run5-server).  Python source functions are shallowly embedded as
executable Lean definitions; randomness is modelled by passing the
drawn values as parameters constrained to the ranges the source
draws from, network traffic by explicit outcome values, and module
level mutable state by explicit state passing.
-/

set_option autoImplicit false

namespace Run5

/-! ## Telemetry parameters (`long_run.py`, `get_run_param`) -/

/-- Round a rational to the nearest integer with ties going to the even
integer, mirroring Python rounding. -/
def roundHalfEven (y : ℚ) : ℤ :=
  if y - (Int.floor y : ℚ) < 1/2 then Int.floor y
  else if 1/2 < y - (Int.floor y : ℚ) then Int.floor y + 1
  else if Int.floor y % 2 = 0 then Int.floor y else Int.floor y + 1

/-- Round to two decimal places with ties going to the even hundredth,
mirroring the semantics of Python `round(x, 2)` (banker's rounding). -/
def pyRound2 (x : ℚ) : ℚ :=
  (roundHalfEven (x * 100) : ℚ) / 100

/-- The record returned by `get_run_param`: speed in m/s, mileage in km,
duration in seconds. -/
structure TelemetryParameters where
  speed : ℚ
  mileage : ℚ
  time : ℚ
  deriving DecidableEq

/-- Embedding of `get_run_param(less_4km)` from
`spider/long_run/long_run.py`.  The two uniform draws are passed in as
`speed_draw` (drawn from `[2.21, 4.26]`) and `mileage_draw` (drawn from
`[3.88, 3.93]` when `less_4km = 1`, from `[4.13, 4.56]` otherwise);
theorems constrain them with `speedDrawOk` / `mileageDrawOk`.
The source rounds each returned field to two decimals. -/
def get_run_param (speed_draw mileage_draw : ℚ) : TelemetryParameters :=
  { speed := pyRound2 speed_draw
    mileage := pyRound2 mileage_draw
    time := pyRound2 (mileage_draw * 1000 / speed_draw) }

/-- The range `random.uniform(2.21, 4.26)` draws from. -/
def speedDrawOk (s : ℚ) : Prop := 221/100 ≤ s ∧ s ≤ 426/100

/-- The mileage range selected by `less_4km`:
`random.uniform(3.88, 3.93)` when `less_4km = 1`,
`random.uniform(4.13, 4.56)` otherwise. -/
def mileageDrawOk (less_4km : ℕ) (m : ℚ) : Prop :=
  if less_4km = 1 then 388/100 ≤ m ∧ m ≤ 393/100
  else 413/100 ≤ m ∧ m ≤ 456/100

/-- `roundHalfEven` moves a value by at most `1/2`. -/
theorem abs_roundHalfEven_sub_le (y : ℚ) : |(roundHalfEven y : ℚ) - y| ≤ 1/2 := by
  have hfl : (Int.floor y : ℚ) ≤ y := Int.floor_le y
  have hfu : y < (Int.floor y : ℚ) + 1 := Int.lt_floor_add_one y
  unfold roundHalfEven
  split_ifs with h1 h2 h3
  · rw [abs_le]; constructor <;> linarith
  · push_neg at h1
    rw [abs_le]; push_cast; constructor <;> linarith
  · push_neg at h1 h2
    rw [abs_le]; constructor <;> linarith
  · push_neg at h1 h2
    rw [abs_le]; push_cast; constructor <;> linarith

/-- Rounding to two decimals moves a value by at most `1/200`. -/
theorem abs_pyRound2_sub_le (x : ℚ) : |pyRound2 x - x| ≤ 1/200 := by
  have h := abs_roundHalfEven_sub_le (x * 100)
  unfold pyRound2
  have heq : (roundHalfEven (x * 100) : ℚ) / 100 - x =
      ((roundHalfEven (x * 100) : ℚ) - x * 100) / 100 := by ring
  rw [heq, abs_div]
  have h100 : |(100 : ℚ)| = 100 := by norm_num
  rw [h100]
  linarith

/-- Evaluate `roundHalfEven` on a concrete non-tie value. -/
theorem roundHalfEven_eval (y : ℚ) (n : ℤ) (h1 : (n : ℚ) ≤ y)
    (h2 : y - (n : ℚ) < 1/2) : roundHalfEven y = n := by
  have hfl : Int.floor y = n := by
    rw [Int.floor_eq_iff]
    constructor
    · exact_mod_cast h1
    · linarith
  unfold roundHalfEven
  rw [hfl]
  rw [if_pos (by linarith)]

/-- Evaluate `roundHalfEven` on a concrete value that rounds up. -/
theorem roundHalfEven_eval_up (y : ℚ) (n : ℤ) (h1 : (n : ℚ) - 1/2 < y)
    (h2 : y < (n : ℚ)) : roundHalfEven y = n := by
  have hfl : Int.floor y = n - 1 := by
    rw [Int.floor_eq_iff]
    constructor
    · push_cast; linarith
    · push_cast; linarith
  unfold roundHalfEven
  rw [hfl]
  rw [if_neg (by push_cast; linarith)]
  rw [if_pos (by push_cast; linarith)]
  omega

/-- C1, counterexample.  With in-range draws `speed_draw = 2.996` and
`mileage_draw = 3.904` (mode `less_4km = 1`), the returned fields are
`speed = 3.00`, `mileage = 3.90`, `time = 1303.07`, but
`mileage*1000/speed = 1300`: recomputing the duration from the returned
(rounded) mileage and speed misses the returned duration by `3.07`,
far more than `1e-6`. -/
theorem get_run_param_recompute_counterexample :
    speedDrawOk (2996/1000) ∧ mileageDrawOk 1 (3904/1000) ∧
    (get_run_param (2996/1000) (3904/1000)).speed = 3 ∧
    (get_run_param (2996/1000) (3904/1000)).mileage = 39/10 ∧
    (get_run_param (2996/1000) (3904/1000)).time = 130307/100 ∧
    ¬ |(get_run_param (2996/1000) (3904/1000)).time -
        (get_run_param (2996/1000) (3904/1000)).mileage * 1000 /
        (get_run_param (2996/1000) (3904/1000)).speed| < 1/1000000 := by
  have hspeed : (get_run_param (2996/1000) (3904/1000)).speed = 3 := by
    show pyRound2 (2996/1000) = 3
    unfold pyRound2
    rw [roundHalfEven_eval_up (2996/1000 * 100) 300 (by norm_num) (by norm_num)]
    norm_num
  have hmile : (get_run_param (2996/1000) (3904/1000)).mileage = 39/10 := by
    show pyRound2 (3904/1000) = 39/10
    unfold pyRound2
    rw [roundHalfEven_eval (3904/1000 * 100) 390 (by norm_num) (by norm_num)]
    norm_num
  have htime : (get_run_param (2996/1000) (3904/1000)).time = 130307/100 := by
    show pyRound2 (3904/1000 * 1000 / (2996/1000)) = 130307/100
    unfold pyRound2
    rw [roundHalfEven_eval (3904/1000 * 1000 / (2996/1000) * 100) 130307
      (by norm_num) (by norm_num)]
    norm_num
  refine ⟨by norm_num [speedDrawOk], by norm_num [mileageDrawOk],
    hspeed, hmile, htime, ?_⟩
  rw [hspeed, hmile, htime]
  rw [not_lt]
  rw [abs_of_pos (by norm_num)]
  norm_num

/-- C1, amended.  For every pair of in-range draws, the returned duration
is derived from the two draws (never independently sampled): it equals
the two-decimal rounding of `mileage_draw * 1000 / speed_draw`, and so
differs from the exact quotient of the unrounded draws by at most
`0.005`.  The sub-`1e-6` identity holds for the unrounded draws, not for
the rounded returned fields. -/
theorem get_run_param_time_derived (less_4km : ℕ) (s m : ℚ)
    (_hs : speedDrawOk s) (_hm : mileageDrawOk less_4km m) :
    (get_run_param s m).time = pyRound2 (m * 1000 / s) ∧
    |(get_run_param s m).time - m * 1000 / s| ≤ 1/200 := by
  refine ⟨rfl, ?_⟩
  exact abs_pyRound2_sub_le (m * 1000 / s)

/-- Witness for `get_run_param_time_derived` at draws `3`, `3.9`. -/
theorem get_run_param_time_derived_witness :
    (get_run_param 3 (39/10)).time = pyRound2 (39/10 * 1000 / 3) ∧
    |(get_run_param 3 (39/10)).time - 39/10 * 1000 / 3| ≤ 1/200 :=
  get_run_param_time_derived 1 3 (39/10)
    (by norm_num [speedDrawOk]) (by norm_num [mileageDrawOk])

/-! ## Retry wrapper (`core/error_handler.py`, `retry_on_exception`) -/

/-- The three retry strategies of `RetryStrategy` in
`core/error_handler.py`. -/
inductive RetryStrategy where
  | fixed_interval
  | exponential_backoff
  | linear_backoff
  deriving DecidableEq

/-- The delay computation of `retry_on_exception` (source lines 132-139):
fixed keeps the base delay, exponential takes
`min(base * mult^attempt, max)`, linear takes
`min(base * (1 + mult*attempt), max)`. -/
def computeDelay (strategy : RetryStrategy)
    (base_delay max_delay backoff_multiplier : ℚ) (attempt : ℕ) : ℚ :=
  match strategy with
  | .fixed_interval => base_delay
  | .exponential_backoff =>
      min (base_delay * backoff_multiplier ^ attempt) max_delay
  | .linear_backoff =>
      min (base_delay * (1 + backoff_multiplier * (attempt : ℚ))) max_delay

/-- What one invocation of the wrapped operation does: return a value,
raise an exception of the configured retryable set, or raise an
exception outside that set (which the `except exceptions` clause does
not catch). -/
inductive AttemptOutcome (α : Type) where
  | ok (v : α)
  | retryableExn (e : String)
  | fatalExn (e : String)
  deriving DecidableEq

/-- Result of the whole wrapper call: a returned value or a raised
exception. -/
inductive RetryResult (α : Type) where
  | value (v : α)
  | raised (e : String)
  deriving DecidableEq

/-- Observable trace of one wrapper call: its result, how many times it
invoked the operation, and the sleeps it performed between attempts. -/
structure RetryTrace (α : Type) where
  result : RetryResult α
  attempts : ℕ
  delays : List ℚ
  deriving DecidableEq

/-- One step of the `for attempt in range(max_retries + 1)` loop of
`retry_on_exception`.  `remaining` is the number of loop iterations
still available (initially `max_retries + 1`), `attempt` the current
index; when `remaining = 1` the current attempt is the last one
(`attempt == max_retries`) and a retryable exception is re-raised. -/
def retryGo {α : Type} (op : ℕ → AttemptOutcome α) (strategy : RetryStrategy)
    (base_delay max_delay backoff_multiplier : ℚ) :
    ℕ → ℕ → RetryTrace α
  | 0, _ => { result := .raised "", attempts := 0, delays := [] }
  | 1, attempt =>
      match op attempt with
      | .ok v => { result := .value v, attempts := 1, delays := [] }
      | .retryableExn e => { result := .raised e, attempts := 1, delays := [] }
      | .fatalExn e => { result := .raised e, attempts := 1, delays := [] }
  | (n+2), attempt =>
      match op attempt with
      | .ok v => { result := .value v, attempts := 1, delays := [] }
      | .fatalExn e => { result := .raised e, attempts := 1, delays := [] }
      | .retryableExn _ =>
          let d := computeDelay strategy base_delay max_delay
            backoff_multiplier attempt
          let rest := retryGo op strategy base_delay max_delay
            backoff_multiplier (n+1) (attempt+1)
          { result := rest.result, attempts := rest.attempts + 1,
            delays := d :: rest.delays }

/-- Embedding of the decorator `retry_on_exception(max_retries, ...)`
applied to an operation: the loop runs over attempts `0..max_retries`
(that is, `max_retries + 1` iterations). -/
def retry_on_exception {α : Type} (max_retries : ℕ)
    (strategy : RetryStrategy)
    (base_delay max_delay backoff_multiplier : ℚ)
    (op : ℕ → AttemptOutcome α) : RetryTrace α :=
  retryGo op strategy base_delay max_delay backoff_multiplier
    (max_retries + 1) 0

/-- On an operation that always raises a retryable exception, the loop
starting with `n` remaining iterations at index `a` performs exactly `n`
attempts (for `n ≥ 1`), sleeps the strategy delays of indices
`a..a+n-2`, and re-raises the exception of the final attempt. -/
theorem retryGo_always_fails {α : Type} (op : ℕ → AttemptOutcome α)
    (strategy : RetryStrategy) (b mx mult : ℚ) (e : ℕ → String)
    (hop : ∀ n, op n = .retryableExn (e n)) :
    ∀ n a, retryGo op strategy b mx mult (n + 1) a =
      { result := .raised (e (a + n)), attempts := n + 1,
        delays := (List.range' a n).map
          (computeDelay strategy b mx mult) } := by
  intro n
  induction n with
  | zero =>
      intro a
      simp [retryGo, hop a]
  | succ k ih =>
      intro a
      have hk := ih (a + 1)
      show retryGo op strategy b mx mult (k + 2) a = _
      simp only [retryGo, hop a, hk]
      rw [List.range'_succ, List.map_cons]
      rw [show a + 1 + k = a + (k + 1) from by omega]

/-- C3, counterexample.  With `RetryStrategy.exponential_backoff`,
`base = 1`, `mult = 2`, `max = 60` and the source parameter
`max_retries = 5`, an always-failing operation is attempted 6 times
(not 5) with sleeps `1, 2, 4, 8, 16` between attempts: the claimed
combination of exactly 5 attempts with those five delays is impossible,
because the loop runs `max_retries + 1` attempts and sleeps once per
retry. -/
theorem retry_on_exception_counterexample :
    (retry_on_exception 5 .exponential_backoff 1 60 2
        (fun _ => AttemptOutcome.retryableExn (α := Unit) "err")).delays
      = [1, 2, 4, 8, 16] ∧
    (retry_on_exception 5 .exponential_backoff 1 60 2
        (fun _ => AttemptOutcome.retryableExn (α := Unit) "err")).attempts
      = 6 ∧
    ¬ (retry_on_exception 5 .exponential_backoff 1 60 2
        (fun _ => AttemptOutcome.retryableExn (α := Unit) "err")).attempts
      = 5 := by
  have h := retryGo_always_fails
    (fun _ => AttemptOutcome.retryableExn (α := Unit) "err")
    .exponential_backoff 1 60 2 (fun _ => "err") (fun _ => rfl) 5 0
  refine ⟨?_, ?_, ?_⟩
  · show (retryGo _ _ _ _ _ 6 0).delays = _
    rw [h]
    rw [show List.range' 0 5 = [0, 1, 2, 3, 4] from rfl]
    simp [computeDelay, min_def]
    norm_num
  · show (retryGo _ _ _ _ _ 6 0).attempts = 6
    rw [h]
  · show ¬ (retryGo _ _ _ _ _ 6 0).attempts = 5
    rw [h]
    simp

/-- C3, amended.  The wrapper retries up to `max_retries` times after
the first try (`max_retries + 1` attempts in total), computing each
inter-attempt delay by the claimed strategy formulas; in particular,
with exponential strategy, `base = 1`, `mult = 2`, `max = 60`,
`max_retries = 5`, an operation that always raises a retryable
exception is attempted exactly 6 times with delays `1, 2, 4, 8, 16`
before the last exception is re-raised. -/
theorem retry_on_exception_exhaustion {α : Type}
    (op : ℕ → AttemptOutcome α) (e : ℕ → String)
    (hop : ∀ n, op n = .retryableExn (e n)) :
    (∀ max_retries strategy b mx mult,
      retry_on_exception max_retries strategy b mx mult op =
        { result := .raised (e max_retries),
          attempts := max_retries + 1,
          delays := (List.range max_retries).map
            (computeDelay strategy b mx mult) }) ∧
    (∀ b mx mult a, computeDelay .fixed_interval b mx mult a = b) ∧
    (∀ b mx mult a, computeDelay .exponential_backoff b mx mult a =
      min (b * mult ^ a) mx) ∧
    (∀ b mx mult a, computeDelay .linear_backoff b mx mult a =
      min (b * (1 + mult * a)) mx) ∧
    (retry_on_exception 5 .exponential_backoff 1 60 2 op).attempts = 6 ∧
    (retry_on_exception 5 .exponential_backoff 1 60 2 op).delays
      = [1, 2, 4, 8, 16] := by
  have hmain : ∀ max_retries strategy b mx mult,
      retry_on_exception max_retries strategy b mx mult op =
        { result := .raised (e max_retries),
          attempts := max_retries + 1,
          delays := (List.range max_retries).map
            (computeDelay strategy b mx mult) } := by
    intro max_retries strategy b mx mult
    unfold retry_on_exception
    rw [retryGo_always_fails op strategy b mx mult e hop max_retries 0]
    simp [List.range_eq_range']
  refine ⟨hmain, fun _ _ _ _ => rfl, fun _ _ _ _ => rfl, fun _ _ _ _ => rfl,
    ?_, ?_⟩
  · rw [hmain 5 .exponential_backoff 1 60 2]
  · rw [hmain 5 .exponential_backoff 1 60 2]
    show (List.range 5).map _ = _
    rw [show List.range 5 = [0, 1, 2, 3, 4] from rfl]
    simp [computeDelay, min_def]
    norm_num

/-- Witness for `retry_on_exception_exhaustion` on a concrete
always-failing operation. -/
theorem retry_on_exception_exhaustion_witness :
    (retry_on_exception 5 .exponential_backoff 1 60 2
        (fun _ => AttemptOutcome.retryableExn (α := Unit) "net")).attempts
      = 6 ∧
    (retry_on_exception 5 .exponential_backoff 1 60 2
        (fun _ => AttemptOutcome.retryableExn (α := Unit) "net")).delays
      = [1, 2, 4, 8, 16] :=
  (retry_on_exception_exhaustion
    (fun _ => AttemptOutcome.retryableExn (α := Unit) "net")
    (fun _ => "net") (fun _ => rfl)).2.2.2.2

/-! ## Safe execution (`core/error_handler.py`, `safe_execute` and
`ErrorHandler.handle_error`) -/

/-- A Python exception value: its type name and message. -/
structure PyExn where
  ty : String
  msg : String
  deriving DecidableEq

/-- What executing the wrapped zero-argument operation does: return a
value or raise an exception. -/
inductive OpResult (α : Type) where
  | ok (v : α)
  | raised (e : PyExn)
  deriving DecidableEq

/-- The `error_counts` dictionary of `ErrorHandler`, keyed by exception
type name. -/
structure ErrorHandlerState where
  error_counts : List (String × ℕ)
  deriving DecidableEq

/-- `self.error_counts[error_type] = self.error_counts.get(error_type, 0) + 1`
on the association-list model of the dictionary. -/
def bumpCount : List (String × ℕ) → String → List (String × ℕ)
  | [], ty => [(ty, 1)]
  | (k, n) :: rest, ty =>
      if k = ty then (k, n + 1) :: rest else (k, n) :: bumpCount rest ty

/-- Embedding of `ErrorHandler.handle_error`: it records the error by
incrementing the per-type error count (one record per call).  The
subsequent dispatch to registered per-type handler functions performs
no further recording and is outside this model. -/
def handle_error (st : ErrorHandlerState) (e : PyExn) : ErrorHandlerState :=
  { error_counts := bumpCount st.error_counts e.ty }

/-- Total number of error records held by an `ErrorHandler`. -/
def totalRecords (st : ErrorHandlerState) : ℕ :=
  (st.error_counts.map Prod.snd).sum

/-- Observable outcome of one `safe_execute` call: the value returned
or the exception propagated, the exceptions forwarded to the error
handler, and the error handler state afterwards. -/
structure SafeExecResult (α : Type) where
  result : OpResult α
  forwarded : List PyExn
  handler : Option ErrorHandlerState
  deriving DecidableEq

/-- Embedding of `safe_execute(func, default_return, exceptions, ...,
error_handler, context)`.  `caught` is the membership test of the
configured `exceptions` tuple (default `Exception`, which catches
every exception); an exception outside it is not caught by the
`except` clause and propagates. -/
def safe_execute {α : Type} (op : OpResult α) (default_return : α)
    (caught : PyExn → Bool) (error_handler : Option ErrorHandlerState) :
    SafeExecResult α :=
  match op with
  | .ok v => { result := .ok v, forwarded := [], handler := error_handler }
  | .raised e =>
      if caught e then
        match error_handler with
        | some st =>
            { result := .ok default_return, forwarded := [e],
              handler := some (handle_error st e) }
        | none =>
            { result := .ok default_return, forwarded := [],
              handler := none }
      else { result := .raised e, forwarded := [], handler := error_handler }

/-- `bumpCount` adds exactly one record. -/
theorem bumpCount_sum (l : List (String × ℕ)) (ty : String) :
    ((bumpCount l ty).map Prod.snd).sum = (l.map Prod.snd).sum + 1 := by
  induction l with
  | nil => simp [bumpCount]
  | cons kv rest ih =>
      obtain ⟨k, n⟩ := kv
      by_cases h : k = ty
      · simp [bumpCount, h]
        omega
      · simp [bumpCount, h, ih]
        omega

/-- C4.  With the default catch-all exception set and a configured
error handler, `safe_execute` never propagates an exception raised by
the operation: it returns the configured default, forwards the
exception to the error handler exactly once, and exactly one error
record is added; when the operation returns normally its value is
passed through. -/
theorem safe_execute_never_propagates {α : Type} (op : OpResult α)
    (default_return : α) (st : ErrorHandlerState) :
    (∀ e, (safe_execute op default_return (fun _ => true)
      (some st)).result ≠ .raised e) ∧
    (∀ e, op = .raised e →
      (safe_execute op default_return (fun _ => true) (some st)).result
          = .ok default_return ∧
      (safe_execute op default_return (fun _ => true) (some st)).forwarded
          = [e] ∧
      (safe_execute op default_return (fun _ => true) (some st)).handler
          = some (handle_error st e) ∧
      totalRecords (handle_error st e) = totalRecords st + 1) ∧
    (∀ v, op = .ok v →
      (safe_execute op default_return (fun _ => true) (some st)).result
          = .ok v) := by
  refine ⟨?_, ?_, ?_⟩
  · intro e
    cases op with
    | ok v => simp [safe_execute]
    | raised e0 => simp [safe_execute]
  · intro e hop
    subst hop
    refine ⟨by simp [safe_execute], by simp [safe_execute],
      by simp [safe_execute], ?_⟩
    unfold totalRecords handle_error
    exact bumpCount_sum st.error_counts e.ty
  · intro v hop
    subst hop
    simp [safe_execute]

/-- Witness for `safe_execute_never_propagates` on a concrete failing
operation and a fresh error handler. -/
theorem safe_execute_never_propagates_witness :
    (safe_execute (OpResult.raised ⟨"ValueError", "boom"⟩) (0 : ℕ)
        (fun _ => true) (some ⟨[]⟩)).result = .ok 0 ∧
    (safe_execute (OpResult.raised ⟨"ValueError", "boom"⟩) (0 : ℕ)
        (fun _ => true) (some ⟨[]⟩)).forwarded
      = [⟨"ValueError", "boom"⟩] ∧
    totalRecords (handle_error ⟨[]⟩ ⟨"ValueError", "boom"⟩)
      = totalRecords ⟨[]⟩ + 1 := by
  have h := (safe_execute_never_propagates
    (OpResult.raised ⟨"ValueError", "boom"⟩) (0 : ℕ) ⟨[]⟩).2.1
    ⟨"ValueError", "boom"⟩ rfl
  exact ⟨h.1, h.2.1, h.2.2.2⟩

/-! ## Temporary-error ledger (`long_run.py`,
`temporary_error_accounts`) -/

/-- An `[account, password]` entry of the ledger. -/
abbrev LedgerEntry := String × String

/-- The guard-and-append idiom used at every addition site of
`long_run.py` (`if [account, password] not in temporary_error_accounts:
temporary_error_accounts.append([account, password])`). -/
def addTemp (ledger : List LedgerEntry) (account password : String) :
    List LedgerEntry :=
  if (account, password) ∈ ledger then ledger
  else ledger ++ [(account, password)]

/-- Python `list.remove(x)`: remove the first occurrence of `x`. -/
def removeFirst : List LedgerEntry → LedgerEntry → List LedgerEntry
  | [], _ => []
  | x :: rest, y => if x = y then rest else x :: removeFirst rest y

/-- The ledger effect of one iteration of `RUN.main`'s account loop
(`long_run.py` lines 373-395): `is_temp_error` is computed before the
login; on login failure `RUN.login` appends the pair; on login success
`start_and_finish` runs (its failure paths append the pair, modelled by
`bodyAdds`), and afterwards the pair is removed when it was in the
ledger before login and still is. -/
def processAccountLedger (ledger : List LedgerEntry)
    (account password : String) (loginOk bodyAdds : Bool) :
    List LedgerEntry :=
  let is_temp_error := (account, password) ∈ ledger
  if loginOk then
    let l1 := if bodyAdds then addTemp ledger account password else ledger
    if is_temp_error ∧ (account, password) ∈ l1 then
      removeFirst l1 (account, password)
    else l1
  else addTemp ledger account password

/-- C5, counterexample.  The additions are deduplicated by the whole
`[account, password]` pair, not by account id: adding the same account
with two different passwords yields a ledger with two entries for that
account id. -/
theorem ledger_dedup_by_pair_counterexample :
    (addTemp (addTemp [] "A" "p1") "A" "p2")
        = [("A", "p1"), ("A", "p2")] ∧
    ((addTemp (addTemp [] "A" "p1") "A" "p2").map Prod.fst)
        = ["A", "A"] ∧
    ¬ ((addTemp (addTemp [] "A" "p1") "A" "p2").map Prod.fst).Nodup := by
  refine ⟨by decide, by decide, by decide⟩

theorem addTemp_nodup (ledger : List LedgerEntry) (a p : String)
    (h : ledger.Nodup) : (addTemp ledger a p).Nodup := by
  unfold addTemp
  split_ifs with hmem
  · exact h
  · refine List.Nodup.append h (by simp) ?_
    intro x hx hx2
    rw [List.mem_singleton] at hx2
    subst hx2
    exact hmem hx

theorem removeFirst_not_mem (ledger : List LedgerEntry) (x : LedgerEntry)
    (h : ledger.Nodup) : x ∉ removeFirst ledger x := by
  induction ledger with
  | nil => simp [removeFirst]
  | cons y rest ih =>
      rw [List.nodup_cons] at h
      unfold removeFirst
      split_ifs with hxy
      · subst hxy
        exact h.1
      · intro hmem
        rcases List.mem_cons.mp hmem with h1 | h1
        · exact hxy h1.symm
        · exact ih h.2 h1

theorem removeFirst_sublist (ledger : List LedgerEntry)
    (x : LedgerEntry) : (removeFirst ledger x).Sublist ledger := by
  induction ledger with
  | nil => simp [removeFirst]
  | cons y rest ih =>
      unfold removeFirst
      split_ifs with hxy
      · exact List.sublist_cons_self y rest
      · exact List.Sublist.cons₂ y ih

/-- C5, amended.  The ledger is deduplicated by `[account, password]`
pair: starting from a pair-deduplicated ledger, additions and the
per-account processing step keep it pair-deduplicated (the same account
id can still occur twice when paired with different passwords); and a
pair present in the ledger is removed by the processing step the moment
the account logs in successfully. -/
theorem ledger_pair_dedup_and_success_removal
    (ledger : List LedgerEntry) (a p : String) (h : ledger.Nodup) :
    (∀ bodyAdds loginOk,
      (processAccountLedger ledger a p loginOk bodyAdds).Nodup) ∧
    (∀ bodyAdds, (a, p) ∈ ledger →
      (a, p) ∉ processAccountLedger ledger a p true bodyAdds) := by
  constructor
  · intro bodyAdds loginOk
    unfold processAccountLedger
    cases loginOk with
    | false => simpa using addTemp_nodup ledger a p h
    | true =>
        simp only [if_true]
        split_ifs with hb hrem hrem
        · exact (removeFirst_sublist _ _).nodup (addTemp_nodup ledger a p h)
        · exact addTemp_nodup ledger a p h
        · exact (removeFirst_sublist _ _).nodup h
        · exact h
  · intro bodyAdds hmem
    unfold processAccountLedger
    simp only [if_true]
    have hl1 : (if bodyAdds then addTemp ledger a p else ledger)
        = ledger := by
      cases bodyAdds with
      | false => rfl
      | true => simp [addTemp, hmem]
    rw [hl1]
    rw [if_pos ⟨hmem, hmem⟩]
    exact removeFirst_not_mem ledger (a, p) h

/-- Witness for `ledger_pair_dedup_and_success_removal` on a concrete
one-entry ledger. -/
theorem ledger_pair_dedup_and_success_removal_witness :
    (processAccountLedger [("A", "p")] "A" "p" true false).Nodup ∧
    ("A", "p") ∉ processAccountLedger [("A", "p")] "A" "p" true false := by
  have h := ledger_pair_dedup_and_success_removal [("A", "p")] "A" "p"
    (by decide)
  exact ⟨h.1 false true, h.2 false (by decide)⟩

/-! ## Outer control loop (`long_run.py`, `main` and `RUN.main`) -/

/-- The sleeps performed by the `while True` loop of `long_run.main`
when the pass counter stands at `i`: if the pass result `fc i` reports
failed accounts (`failed_count > 0`, with `-1` encoding an exception)
and fewer than 10 passes have run, the counter is incremented and the
loop sleeps `60 * i` seconds with the incremented counter before the
next pass; otherwise the loop ends. -/
def outerSleeps (fc : ℕ → ℤ) (i : ℕ) : List ℕ :=
  if h : 0 < fc i ∧ i < 10 then 60 * (i + 1) :: outerSleeps fc (i + 1)
  else []
termination_by 10 - i
decreasing_by omega

/-- Number of whole-queue passes the loop executes (the first pass
always runs; each sleep precedes one further pass). -/
def outerPassCount (fc : ℕ → ℤ) : ℕ :=
  (outerSleeps fc 1).length + 1

/-- The account list of the next pass (`RUN.main` lines 351-355): each
ledger entry not already in the base list is appended. -/
def nextPassAccounts (base ledger : List LedgerEntry) :
    List LedgerEntry :=
  ledger.foldl (fun acc e => if e ∈ acc then acc else acc ++ [e]) base

theorem outerSleeps_length_le (fc : ℕ → ℤ) :
    ∀ i, (outerSleeps fc i).length ≤ 10 - i := by
  have aux : ∀ n i, 10 - i ≤ n → (outerSleeps fc i).length ≤ 10 - i := by
    intro n
    induction n with
    | zero =>
        intro i h
        have hneg : ¬ (0 < fc i ∧ i < 10) := fun hc => by omega
        rw [outerSleeps, dif_neg hneg]
        simp
    | succ k ih =>
        intro i h
        rw [outerSleeps]
        split_ifs with hcond
        · have := ih (i + 1) (by omega)
          simp only [List.length_cons]
          omega
        · simp
  exact fun i => aux 10 i (by omega)

theorem nextPassAccounts_mem (ledger : List LedgerEntry) :
    ∀ base e, e ∈ ledger → e ∈ nextPassAccounts base ledger := by
  induction ledger with
  | nil => intro base e h; cases h
  | cons x rest ih =>
      intro base e h
      unfold nextPassAccounts
      rw [List.foldl_cons]
      have hbase : ∀ b : List LedgerEntry, x ∈ b →
          ∀ l : List LedgerEntry, x ∈ l.foldl
            (fun acc e => if e ∈ acc then acc else acc ++ [e]) b := by
        intro b hb l
        induction l generalizing b with
        | nil => exact hb
        | cons y ys ihy =>
            rw [List.foldl_cons]
            apply ihy
            split_ifs with hy
            · exact hb
            · exact List.mem_append_left _ hb
      rcases List.mem_cons.mp h with rfl | hrest
      · apply hbase
        split_ifs with hx
        · exact hx
        · exact List.mem_append_right _ (by simp)
      · exact ih _ e hrest

/-- C8.  The outer control loop makes whole-queue passes: every ledger
entry is re-queued into the next pass; between pass `p` and pass `p+1`
it sleeps `60 * (p+1)` seconds (60 seconds times the index of the pass
the sleep precedes, so the sleeps of an always-failing run are
`120, 180, ..., 600`); it runs at most 10 passes; and it exits with no
further pass as soon as a pass reports zero failed accounts. -/
theorem outer_loop_spec (fc : ℕ → ℤ) :
    (∀ base ledger e, e ∈ ledger → e ∈ nextPassAccounts base ledger) ∧
    (∀ i, 0 < fc i → i < 10 →
      outerSleeps fc i = 60 * (i + 1) :: outerSleeps fc (i + 1)) ∧
    outerPassCount fc ≤ 10 ∧
    (∀ i, fc i ≤ 0 → outerSleeps fc i = []) ∧
    ((∀ j, 0 < fc j) →
      outerSleeps fc 1 = [120, 180, 240, 300, 360, 420, 480, 540, 600]) := by
  refine ⟨fun base ledger e h => nextPassAccounts_mem ledger base e h,
    ?_, ?_, ?_, ?_⟩
  · intro i h1 h2
    rw [outerSleeps]
    rw [dif_pos ⟨h1, h2⟩]
  · unfold outerPassCount
    have := outerSleeps_length_le fc 1
    omega
  · intro i h
    rw [outerSleeps]
    rw [dif_neg (by omega)]
  · intro hall
    have step : ∀ i, i < 10 →
        outerSleeps fc i = 60 * (i + 1) :: outerSleeps fc (i + 1) := by
      intro i hlt
      rw [outerSleeps]
      rw [dif_pos ⟨hall i, hlt⟩]
    have stop : outerSleeps fc 10 = [] := by
      rw [outerSleeps]
      rw [dif_neg (by omega)]
    rw [step 1 (by omega), step 2 (by omega), step 3 (by omega),
      step 4 (by omega), step 5 (by omega), step 6 (by omega),
      step 7 (by omega), step 8 (by omega), step 9 (by omega), stop]

/-- Witness for `outer_loop_spec` at a run whose first two passes fail
and whose third succeeds: sleeps 120 and 180 precede passes 2 and 3 and
the loop then stops. -/
theorem outer_loop_spec_witness :
    outerSleeps (fun i => if i ≤ 2 then 1 else 0) 1 = [120, 180] ∧
    outerPassCount (fun i => if i ≤ 2 then 1 else 0) ≤ 10 ∧
    ("A", "p") ∈ nextPassAccounts [] [("A", "p")] := by
  have h := outer_loop_spec (fun i => if i ≤ 2 then 1 else 0)
  refine ⟨?_, h.2.2.1, h.1 [] [("A", "p")] ("A", "p") (by decide)⟩
  rw [h.2.1 1 (by norm_num) (by norm_num),
    h.2.1 2 (by norm_num) (by norm_num),
    h.2.2.2.1 3 (by norm_num)]

/-! ## Batch scheduler and password-error ledger (`red_run.py`) -/

/-- A record of `red_error_password.json`: password and error time. -/
structure PwdRecord where
  password : String
  error_time : String
  deriving DecidableEq

/-- Python dict assignment `records[account] = {...}` on the
association-list model: overwrite the entry when the key is present,
append otherwise. -/
def dictInsert : List (String × PwdRecord) → String → PwdRecord →
    List (String × PwdRecord)
  | [], k, v => [(k, v)]
  | (k0, v0) :: rest, k, v =>
      if k0 = k then (k, v) :: rest else (k0, v0) :: dictInsert rest k v

/-- Key lookup in the password-error record dictionary. -/
def pwdLookup : List (String × PwdRecord) → String → Option PwdRecord
  | [], _ => none
  | (k0, v0) :: rest, k => if k0 = k then some v0 else pwdLookup rest k

/-- Embedding of `mark_error_password(account, password)`
(`red_run.py` lines 246-256): store
`records[account] = {password, error_time}` in the ledger file. -/
def mark_error_password (records : List (String × PwdRecord))
    (account password error_time : String) :
    List (String × PwdRecord) :=
  dictInsert records account ⟨password, error_time⟩

/-- The account-selection filter of the `__main__` block
(`red_run.py` lines 586-594): when the password-error file has records,
keep only the accounts whose id is not a key of it. -/
def selectAccounts (accounts : List (String × String))
    (records : List (String × PwdRecord)) : List (String × String) :=
  if records = [] then accounts
  else accounts.filter (fun ap => (pwdLookup records ap.1).isNone)

/-- Outcome of the login request in `red_run.login`: network failure,
JSON parse failure, or a response carrying `msg` and an optional
`token` (`none` models both an absent and an empty token, which Python
treats alike via `if not token`). -/
inductive LoginOutcome where
  | netErr
  | parseErr
  | resp (msg : String) (token : Option String)
  deriving DecidableEq

/-- Outcome of `red_run.sign_up`: the request either goes through or
raises; either way the task continues. -/
inductive SignUpOutcome where
  | sent
  | netErr
  deriving DecidableEq

/-- Outcome of the start-challenge request in `red_run.start`.
`ok challengeId` carries the returned id; the source treats a falsy id
(0 or absent) through the `if not challenge_id` branch, modelled by
`noId`. -/
inductive StartOutcome where
  | netErr
  | parseErr
  | alreadyDone
  | noId
  | ok (challengeId : ℕ)
  deriving DecidableEq

/-- Outcome of the finish request in `red_run.finish`: network failure,
parse failure, or a response message. -/
inductive FinishOutcome where
  | netErr
  | parseErr
  | msg (m : String)
  deriving DecidableEq

/-- Effect of one `red_run.login` call: the token returned (`none` for
the `return None` paths), the password-error records afterwards, and
the `result` field written to the panel (`none` when login only updates
the status). -/
structure LoginEffect where
  token : Option String
  records : List (String × PwdRecord)
  panelResult : Option String
  deriving DecidableEq

/-- Embedding of `red_run.login` (lines 259-306): a network or parse
failure yields `failed`; the fixed credentials-rejected message
`用户不存在/密码错误` records the account in the password-error ledger and
yields `password_error`; a missing/empty token yields `failed`; otherwise
the token is returned. -/
def login_red (lo : LoginOutcome) (records : List (String × PwdRecord))
    (account password error_time : String) : LoginEffect :=
  match lo with
  | .netErr => ⟨none, records, some "failed"⟩
  | .parseErr => ⟨none, records, some "failed"⟩
  | .resp msg token =>
      if msg = "用户不存在/密码错误" then
        ⟨none, mark_error_password records account password error_time,
          some "password_error"⟩
      else
        match token with
        | none => ⟨none, records, some "failed"⟩
        | some t =>
            if t = "" then ⟨none, records, some "failed"⟩
            else ⟨some t, records, none⟩

/-- The final panel `result` of one `process_account` task
(`red_run.py` lines 445-477, default case `报名加跑步`), as a function of
the four request outcomes.  Panel updates overwrite the `result` field,
so the last written value is returned; the `sign_up` outcome never
survives because every later `start`/`finish` branch writes `result`
again or start hands over to finish. -/
def process_account_result (lo : LoginOutcome) (_su : SignUpOutcome)
    (so : StartOutcome) (fo : FinishOutcome)
    (records : List (String × PwdRecord))
    (account password error_time : String) : Option String :=
  let eff := login_red lo records account password error_time
  match eff.token with
  | none => eff.panelResult
  | some _ =>
      match so with
      | .netErr => some "failed"
      | .parseErr => some "failed"
      | .alreadyDone => some "already_completed"
      | .noId => some "failed"
      | .ok cid =>
          if cid = 0 then some "failed"
          else
            match fo with
            | .netErr => some "failed"
            | .parseErr => some "failed"
            | .msg m =>
                if m = "操作成功" then some "success" else some "failed"

/-- The batch summary of `BatchPanel.build_summary`
(`red_run.py` lines 134-154). -/
structure Summary where
  total : ℕ
  success : ℕ
  already_completed : ℕ
  password_error : ℕ
  failed : ℕ
  deriving DecidableEq

/-- Embedding of `BatchPanel.build_summary`: count every state into
`total` and bucket it by its `result` string; a `None` or empty-string
result falls into no bucket (`elif state.result` tests Python
truthiness). -/
def build_summary : List (Option String) → Summary
  | [] => ⟨0, 0, 0, 0, 0⟩
  | r :: rest =>
      let s := build_summary rest
      match r with
      | none => ⟨s.total + 1, s.success, s.already_completed,
          s.password_error, s.failed⟩
      | some v =>
          if v = "success" then
            ⟨s.total + 1, s.success + 1, s.already_completed,
              s.password_error, s.failed⟩
          else if v = "already_completed" then
            ⟨s.total + 1, s.success, s.already_completed + 1,
              s.password_error, s.failed⟩
          else if v = "password_error" then
            ⟨s.total + 1, s.success, s.already_completed,
              s.password_error + 1, s.failed⟩
          else if v ≠ "" then
            ⟨s.total + 1, s.success, s.already_completed,
              s.password_error, s.failed + 1⟩
          else ⟨s.total + 1, s.success, s.already_completed,
            s.password_error, s.failed⟩

/-- The drain loop of `red_run.main` (lines 491-500): take up to
`batch_size` queue items per batch with non-blocking gets, stop the
batch early when the queue is empty, and end the loop on an empty
batch. -/
def drainQueue {α : Type} : List α → ℕ → List (List α)
  | q, batch_size =>
      if h : (q.take batch_size).length = 0 then []
      else q.take batch_size :: drainQueue (q.drop batch_size) batch_size
termination_by q _ => q.length
decreasing_by
  simp only [List.length_take] at h
  simp only [List.length_drop]
  omega

theorem drainQueue_nil {α : Type} (bs : ℕ) :
    drainQueue ([] : List α) bs = [] := by
  rw [drainQueue]
  simp

theorem drainQueue_step {α : Type} (q : List α) (bs : ℕ) (hq : q ≠ [])
    (hb : bs ≠ 0) :
    drainQueue q bs = q.take bs :: drainQueue (q.drop bs) bs := by
  rw [drainQueue, dif_neg]
  simp only [List.length_take]
  have : q.length ≠ 0 := fun h0 => hq (List.length_eq_zero.mp h0)
  omega

/-- Every queue item ends up in exactly the drained batches, in order:
the batches concatenate back to the queue. -/
theorem drainQueue_flatten {α : Type} (bs : ℕ) (hb : bs ≠ 0) :
    ∀ q : List α, (drainQueue q bs).flatten = q := by
  have aux : ∀ n (q : List α), q.length ≤ n →
      (drainQueue q bs).flatten = q := by
    intro n
    induction n with
    | zero =>
        intro q h
        have : q = [] := List.length_eq_zero.mp (by omega)
        subst this
        rw [drainQueue_nil]
        rfl
    | succ k ih =>
        intro q h
        by_cases hq : q = []
        · subst hq
          rw [drainQueue_nil]
          rfl
        · rw [drainQueue_step q bs hq hb]
          rw [List.flatten_cons]
          rw [ih (q.drop bs) (by simp; omega)]
          exact List.take_append_drop bs q
  exact fun q => aux q.length q le_rfl

theorem build_summary_total (results : List (Option String)) :
    (build_summary results).total = results.length := by
  induction results with
  | nil => rfl
  | cons r rest ih =>
      cases r with
      | none => simpa [build_summary] using ih
      | some v =>
          simp only [build_summary, List.length_cons]
          split_ifs <;> simpa using ih

theorem build_summary_buckets (results : List (Option String))
    (h : ∀ r ∈ results, r ∈ ([some "success", some "already_completed",
      some "password_error", some "failed"] : List (Option String))) :
    (build_summary results).success +
      (build_summary results).already_completed +
      (build_summary results).password_error +
      (build_summary results).failed = (build_summary results).total := by
  induction results with
  | nil => rfl
  | cons r rest ih =>
      have hr := h r (List.mem_cons_self r rest)
      have hrest := ih (fun x hx => h x (List.mem_cons_of_mem r hx))
      have hsucc : build_summary (some "success" :: rest) =
          ⟨(build_summary rest).total + 1, (build_summary rest).success + 1,
            (build_summary rest).already_completed,
            (build_summary rest).password_error,
            (build_summary rest).failed⟩ := rfl
      have hdone : build_summary (some "already_completed" :: rest) =
          ⟨(build_summary rest).total + 1, (build_summary rest).success,
            (build_summary rest).already_completed + 1,
            (build_summary rest).password_error,
            (build_summary rest).failed⟩ := rfl
      have hpwd : build_summary (some "password_error" :: rest) =
          ⟨(build_summary rest).total + 1, (build_summary rest).success,
            (build_summary rest).already_completed,
            (build_summary rest).password_error + 1,
            (build_summary rest).failed⟩ := rfl
      have hfail : build_summary (some "failed" :: rest) =
          ⟨(build_summary rest).total + 1, (build_summary rest).success,
            (build_summary rest).already_completed,
            (build_summary rest).password_error,
            (build_summary rest).failed + 1⟩ := rfl
      simp only [List.mem_cons, List.mem_singleton] at hr
      rcases hr with rfl | rfl | rfl | rfl | hr
      · rw [hsucc]
        simp only []
        omega
      · rw [hdone]
        simp only []
        omega
      · rw [hpwd]
        simp only []
        omega
      · rw [hfail]
        simp only []
        omega
      · cases hr

/-- Every task of the default case writes one of the four outcome
strings to the panel before it finishes. -/
theorem process_account_result_total (lo : LoginOutcome)
    (su : SignUpOutcome) (so : StartOutcome) (fo : FinishOutcome)
    (records : List (String × PwdRecord)) (a p t : String) :
    process_account_result lo su so fo records a p t ∈
      ([some "success", some "already_completed", some "password_error",
        some "failed"] : List (Option String)) := by
  cases lo with
  | netErr => simp [process_account_result, login_red]
  | parseErr => simp [process_account_result, login_red]
  | resp msg token =>
      by_cases hmsg : msg = "用户不存在/密码错误"
      · simp [process_account_result, login_red, hmsg]
      · cases token with
        | none => simp [process_account_result, login_red, hmsg]
        | some tok =>
            by_cases htok : tok = ""
            · simp [process_account_result, login_red, hmsg, htok]
            · have hlr : login_red (.resp msg (some tok)) records a p t
                  = ⟨some tok, records, none⟩ := by
                simp only [login_red]
                rw [if_neg hmsg, if_neg htok]
              simp only [process_account_result, hlr]
              cases so with
              | netErr => simp
              | parseErr => simp
              | alreadyDone => simp
              | noId => simp
              | ok cid =>
                  dsimp only
                  by_cases hcid : cid = 0
                  · simp [hcid]
                  · rw [if_neg hcid]
                    cases fo with
                    | netErr => simp
                    | parseErr => simp
                    | msg m => by_cases hm : m = "操作成功" <;> simp [hm]

/-- C6.  A queue of 7 accounts drained with `batch_size = 5` produces
exactly two batches, of sizes 5 and 2, which together contain exactly
the queued items; every task of a batch ends with one of the four
outcome strings, so each batch summary satisfies
`success + already_completed + password_error + failed = total` with
`total` the batch size. -/
theorem batch_scheduling_spec {α : Type} (q : List α)
    (hlen : q.length = 7) :
    (drainQueue q 5).map List.length = [5, 2] ∧
    (drainQueue q 5).flatten = q ∧
    (∀ lo su so fo records a p t,
      process_account_result lo su so fo records a p t ∈
        ([some "success", some "already_completed", some "password_error",
          some "failed"] : List (Option String))) ∧
    (∀ results : List (Option String),
      (∀ r ∈ results, r ∈ ([some "success", some "already_completed",
        some "password_error", some "failed"] : List (Option String))) →
      (build_summary results).success +
        (build_summary results).already_completed +
        (build_summary results).password_error +
        (build_summary results).failed = results.length) := by
  have hq : q ≠ [] := by
    intro h
    rw [h] at hlen
    simp at hlen
  have hdroplen : (q.drop 5).length = 2 := by simp [hlen]
  have hdrop : q.drop 5 ≠ [] := by
    intro h
    rw [h] at hdroplen
    simp at hdroplen
  have hdrop2 : (q.drop 5).drop 5 = [] := by
    apply List.length_eq_zero.mp
    simp [hlen]
  refine ⟨?_, drainQueue_flatten 5 (by omega) q, ?_, ?_⟩
  · rw [drainQueue_step q 5 hq (by omega),
      drainQueue_step (q.drop 5) 5 hdrop (by omega), hdrop2,
      drainQueue_nil]
    simp [hlen, hdroplen]
  · intro lo su so fo records a p t
    exact process_account_result_total lo su so fo records a p t
  · intro results h
    rw [build_summary_buckets results h, build_summary_total results]

/-- Witness for `batch_scheduling_spec` on the concrete queue
`[1,...,7]`. -/
theorem batch_scheduling_spec_witness :
    (drainQueue [1, 2, 3, 4, 5, 6, 7] 5).map List.length = [5, 2] ∧
    (build_summary [some "success", some "failed"]).success +
      (build_summary [some "success", some "failed"]).already_completed +
      (build_summary [some "success", some "failed"]).password_error +
      (build_summary [some "success", some "failed"]).failed = 2 := by
  have h := batch_scheduling_spec [1, 2, 3, 4, 5, 6, 7] (by decide)
  exact ⟨h.1, h.2.2.2 [some "success", some "failed"] (by decide)⟩

theorem pwdLookup_dictInsert (records : List (String × PwdRecord))
    (k : String) (v : PwdRecord) :
    pwdLookup (dictInsert records k v) k = some v := by
  induction records with
  | nil => simp [dictInsert, pwdLookup]
  | cons kv rest ih =>
      obtain ⟨k0, v0⟩ := kv
      by_cases hk : k0 = k
      · simp [dictInsert, pwdLookup, hk]
      · simp [dictInsert, pwdLookup, hk, ih]

theorem selectAccounts_excludes (accounts : List (String × String))
    (records : List (String × PwdRecord)) (a : String)
    (ha : (pwdLookup records a).isSome) :
    ∀ x ∈ selectAccounts accounts records, x.1 ≠ a := by
  intro x hx
  unfold selectAccounts at hx
  split_ifs at hx with hempty
  · subst hempty
    simp [pwdLookup] at ha
  · intro hxa
    rw [List.mem_filter] at hx
    rw [hxa] at hx
    rw [Option.isNone_iff_eq_none] at hx
    rw [Option.isSome_iff_exists] at ha
    obtain ⟨v, hv⟩ := ha
    rw [hv] at hx
    exact Option.some_ne_none v hx.2

/-- C7.  When the login response message equals the fixed
credentials-rejected string, the task ends in the `password_error`
terminal state, the account is stored in the password-error ledger
together with its password and a timestamp, and the next run's
account-selection pass excludes every queue entry with that account
id. -/
theorem password_error_flow (records : List (String × PwdRecord))
    (a p t msg : String) (token : Option String)
    (hmsg : msg = "用户不存在/密码错误") :
    (login_red (.resp msg token) records a p t).panelResult
        = some "password_error" ∧
    (login_red (.resp msg token) records a p t).token = none ∧
    (∀ su so fo, process_account_result (.resp msg token) su so fo
        records a p t = some "password_error") ∧
    pwdLookup (login_red (.resp msg token) records a p t).records a
        = some ⟨p, t⟩ ∧
    (∀ accounts x,
      x ∈ selectAccounts accounts
        (login_red (.resp msg token) records a p t).records →
      x.1 ≠ a) := by
  have heff : login_red (.resp msg token) records a p t =
      ⟨none, mark_error_password records a p t, some "password_error"⟩ := by
    simp [login_red, hmsg]
  refine ⟨by rw [heff], by rw [heff], ?_, ?_, ?_⟩
  · intro su so fo
    simp only [process_account_result, heff]
  · rw [heff]
    exact pwdLookup_dictInsert records a ⟨p, t⟩
  · intro accounts x hx
    refine selectAccounts_excludes accounts _ a ?_ x hx
    rw [heff]
    show (pwdLookup (mark_error_password records a p t) a).isSome
    rw [mark_error_password, pwdLookup_dictInsert]
    rfl

/-- Witness for `password_error_flow` on a concrete account. -/
theorem password_error_flow_witness :
    (∀ su so fo, process_account_result
        (.resp "用户不存在/密码错误" none) su so fo [] "A" "p" "now"
      = some "password_error") ∧
    pwdLookup (login_red (.resp "用户不存在/密码错误" none) [] "A" "p"
        "now").records "A" = some ⟨"p", "now"⟩ ∧
    (∀ x, x ∈ selectAccounts [("A", "p"), ("B", "q")]
        (login_red (.resp "用户不存在/密码错误" none) [] "A" "p"
          "now").records → x.1 ≠ "A") := by
  have h := password_error_flow [] "A" "p" "now" "用户不存在/密码错误" none rfl
  exact ⟨h.2.2.1, h.2.2.2.1, fun x hx => h.2.2.2.2 [("A", "p"), ("B", "q")] x hx⟩

/-! ## Session logout (`package/auth/login.py`, `logout`, and the
session registry of `session_manager`) -/

/-- A header dictionary, modelled as an association list with at most
one entry per key. -/
abbrev Headers := List (String × String)

/-- The `finally` block of `login.logout` (`login.py` lines 212-217):
`session.headers.pop(key, None)` for `custom-header` and
`Authorization`, in that order, applied whatever the network outcome
was. -/
def logoutHeaderCleanup (headers : Headers) : Headers :=
  ((headers.filter (fun kv => kv.1 ≠ "custom-header")).filter
    (fun kv => kv.1 ≠ "Authorization"))

/-- Embedding of `login.logout(session, config)`: the network request
either succeeds (`netOk = true`, return `True`) or raises a caught
`RequestException` (return `False`); the `finally` block strips the
two authorization-like headers in both cases. -/
def logout (netOk : Bool) (headers : Headers) : Bool × Headers :=
  (netOk, logoutHeaderCleanup headers)

/-- A registered session: the account id it belongs to and its header
set. -/
structure SessionEntry where
  owner : String
  headers : Headers
  deriving DecidableEq

/-- Registry lookup by account id. -/
def registryLookup : List SessionEntry → String → Option SessionEntry
  | [], _ => none
  | s :: rest, a => if s.owner = a then some s else registryLookup rest a

/-- Modelled from the spec: `session_manager.logout_session(account)`
(module `spider/package/auth/session_manager.py`, which is not part of
the provided sources) performs a best-effort network logout, then
unconditionally evicts the registry entry of the account and strips
the authorization-like headers of its session even if the network call
fails.  The network logout and header stripping are the embedded
`logout` above; eviction removes the account key from the registry.
Returns the new registry and the headers of the evicted session after
cleanup. -/
def logout_session (netOk : Bool) (registry : List SessionEntry)
    (account : String) : List SessionEntry × Option Headers :=
  (registry.filter (fun s => s.owner ≠ account),
    (registryLookup registry account).map
      (fun s => (logout netOk s.headers).2))

/-- C9.  Whatever the network outcome, `logout_session` evicts the
account from the registry, strips exactly the `Authorization` and
`custom-header` entries from the headers of the evicted session, and
leaves every other header entry unchanged. -/
theorem logout_session_spec (netOk : Bool) (registry : List SessionEntry)
    (account : String) (s : SessionEntry)
    (hs : registryLookup registry account = some s) :
    (∀ e ∈ (logout_session netOk registry account).1,
      e.owner ≠ account) ∧
    (logout_session netOk registry account).2
        = some (logoutHeaderCleanup s.headers) ∧
    (∀ k v, (k, v) ∈ logoutHeaderCleanup s.headers →
      k ≠ "Authorization" ∧ k ≠ "custom-header") ∧
    (∀ k v, k ≠ "Authorization" → k ≠ "custom-header" →
      ((k, v) ∈ logoutHeaderCleanup s.headers ↔ (k, v) ∈ s.headers)) := by
  refine ⟨?_, ?_, ?_, ?_⟩
  · intro e he
    unfold logout_session at he
    have := List.of_mem_filter he
    simpa using this
  · unfold logout_session
    rw [hs]
    rfl
  · intro k v hkv
    unfold logoutHeaderCleanup at hkv
    have h2 := List.of_mem_filter hkv
    have h1 := List.of_mem_filter (List.mem_of_mem_filter hkv)
    simp only [decide_eq_true_eq] at h1 h2
    exact ⟨h2, h1⟩
  · intro k v hk1 hk2
    unfold logoutHeaderCleanup
    constructor
    · intro hkv
      exact List.mem_of_mem_filter (List.mem_of_mem_filter hkv)
    · intro hkv
      apply List.mem_filter.mpr
      refine ⟨List.mem_filter.mpr ⟨hkv, by simpa using hk2⟩, by simpa using hk1⟩

/-- Witness for `logout_session_spec`: a registry with one session
whose headers carry `Authorization`, `custom-header` and `User-Agent`;
after a failed network logout only `User-Agent` survives and the
registry is empty. -/
theorem logout_session_spec_witness :
    (∀ e ∈ (logout_session false
        [⟨"A", [("Authorization", "Bearer t"), ("custom-header", "x"),
          ("User-Agent", "ua")]⟩] "A").1, e.owner ≠ "A") ∧
    (logout_session false
        [⟨"A", [("Authorization", "Bearer t"), ("custom-header", "x"),
          ("User-Agent", "ua")]⟩] "A").2
      = some [("User-Agent", "ua")] := by
  have h := logout_session_spec false
    [⟨"A", [("Authorization", "Bearer t"), ("custom-header", "x"),
      ("User-Agent", "ua")]⟩] "A"
    ⟨"A", [("Authorization", "Bearer t"), ("custom-header", "x"),
      ("User-Agent", "ua")]⟩ (by decide)
  refine ⟨h.1, ?_⟩
  rw [h.2.1]
  rfl

/-! ## Exhausted-retries path of `create_authenticated_session`
(`package/auth/login.py`) -/

/-- What one login attempt inside `create_authenticated_session` does:
raise `requests.RequestException` (caught, retried), raise `ValueError`
while parsing the response (caught, breaks the loop), or deliver a
parsed response with `msg` and optional `token`. -/
inductive CaslAttempt where
  | reqExn (msg : String)
  | valueExn (msg : String)
  | resp (msg : String) (token : Option String)
  deriving DecidableEq

/-- How a call of `create_authenticated_session` terminates: `ret`
models a normal `return` (with `some token` standing for the
authenticated session), `exn` an exception escaping the function. -/
inductive CaslResult where
  | ret (session : Option String)
  | exn (ty : String)
  deriving DecidableEq

/-- The code that follows the retry loop (`login.py` lines 378-386):
with `track_errors` true it evaluates
`[username, password] not in error_accounts`, and the name
`error_accounts` is bound nowhere in that scope (the module has no such
global; the sibling `login` function uses `error_account_manager`
instead), so a `NameError` escapes; with `track_errors` false the
short-circuit skips the lookup and `None` is returned. -/
def caslExhausted (track_errors : Bool) : CaslResult :=
  if track_errors then .exn "NameError" else .ret none

/-- The `for attempt in range(max_retries)` loop of
`create_authenticated_session` (`login.py` lines 294-376):
`remaining` counts the loop iterations left.  A `RequestException` is
caught and the loop continues; a `ValueError` breaks out to the
post-loop code; a response either returns `None` (bad message, missing
or empty token) or returns the session. -/
def caslLoop (attempts : ℕ → CaslAttempt) (track_errors : Bool) :
    ℕ → ℕ → CaslResult
  | 0, _ => caslExhausted track_errors
  | remaining + 1, idx =>
      match attempts idx with
      | .reqExn _ => caslLoop attempts track_errors remaining (idx + 1)
      | .valueExn _ => caslExhausted track_errors
      | .resp msg token =>
          if msg ≠ "操作成功" then .ret none
          else
            match token with
            | none => .ret none
            | some t => if t = "" then .ret none else .ret (some t)

/-- Embedding of
`create_authenticated_session(username, password, headers, config,
track_errors)` as a function of the attempt outcomes; `max_retries` is
`config.max_retries`. -/
def create_authenticated_session (max_retries : ℕ) (track_errors : Bool)
    (attempts : ℕ → CaslAttempt) : CaslResult :=
  caslLoop attempts track_errors max_retries 0

/-- C10.  When every one of the `max_retries` attempts raises
`requests.RequestException` and `track_errors` is true, the function
does not return `None`: the exhausted-retries path raises `NameError`
on the unbound name `error_accounts`, so the `session.close()` and
`return None` after the loop are unreachable on that path. -/
theorem create_authenticated_session_name_error (max_retries : ℕ)
    (attempts : ℕ → CaslAttempt) (m : ℕ → String)
    (hatt : ∀ n, attempts n = .reqExn (m n)) :
    create_authenticated_session max_retries true attempts
        = .exn "NameError" ∧
    create_authenticated_session max_retries true attempts
        ≠ .ret none := by
  have hloop : ∀ remaining idx,
      caslLoop attempts true remaining idx = caslExhausted true := by
    intro remaining
    induction remaining with
    | zero => intro idx; rfl
    | succ k ih =>
        intro idx
        show caslLoop attempts true (k + 1) idx = _
        rw [caslLoop, hatt idx]
        exact ih (idx + 1)
  unfold create_authenticated_session
  rw [hloop max_retries 0]
  exact ⟨rfl, by simp [caslExhausted]⟩

/-- Witness for `create_authenticated_session_name_error` at
`max_retries = 3` (the default of `LoginConfig`) with every attempt a
connection failure. -/
theorem create_authenticated_session_name_error_witness :
    create_authenticated_session 3 true
        (fun _ => CaslAttempt.reqExn "timeout") = .exn "NameError" ∧
    create_authenticated_session 3 true
        (fun _ => CaslAttempt.reqExn "timeout") ≠ .ret none :=
  create_authenticated_session_name_error 3
    (fun _ => CaslAttempt.reqExn "timeout") (fun _ => "timeout")
    (fun _ => rfl)

/-! ## Freshness token (`long_run/fake_key.py`, `encrypt_timestamp`)

The AES-ECB encryption under the fixed key is supplied by the external
pycryptodome library; it is modelled as a parameter `cipher` on 16-byte
blocks, constrained in the theorems to the block-cipher contract (a
length-preserving injection on byte blocks, which any block cipher
under a fixed key satisfies, being a permutation of the block space).
Everything else — `str(int(time.time()*1000))`, PKCS7 padding, ECB
chunking, base64, the ceil split — is embedded from the source. -/

/-- The ASCII bytes of Python `str(t)` for a natural `t`:
most-significant digit first, each digit offset by 48. -/
def decimalBytes (t : ℕ) : List ℕ :=
  ((Nat.digits 10 t).map (fun d => d + 48)).reverse

/-- PKCS7 padding to the AES block size 16, as done by
`Crypto.Util.Padding.pad`: append `16 - len % 16` bytes, each equal to
that count. -/
def pkcs7pad (msg : List ℕ) : List ℕ :=
  msg ++ List.replicate (16 - msg.length % 16) (16 - msg.length % 16)

/-- ECB mode: apply the block cipher to each successive 16-byte block. -/
def ecbBlocks (cipher : List ℕ → List ℕ) (msg : List ℕ) : List ℕ :=
  if h : msg.length = 0 then []
  else cipher (msg.take 16) ++ ecbBlocks cipher (msg.drop 16)
termination_by msg.length
decreasing_by
  simp only [List.length_drop]
  omega

/-- The base64 alphabet. -/
def b64alphabet : List Char :=
  "ABCDEFGHIJKLMNOPQRSTUVWXYZabcdefghijklmnopqrstuvwxyz0123456789+/".toList

/-- The base64 character of a 6-bit group. -/
def b64char (n : ℕ) : Char := b64alphabet.getD n 'A'

/-- Standard base64 encoding of a byte list (as done by
`base64.b64encode`), three bytes to four characters, with `=`
padding. -/
def b64encode : List ℕ → List Char
  | a :: b :: c :: rest =>
      b64char ((a * 65536 + b * 256 + c) / 262144) ::
        b64char ((a * 65536 + b * 256 + c) / 4096 % 64) ::
        b64char ((a * 65536 + b * 256 + c) / 64 % 64) ::
        b64char ((a * 65536 + b * 256 + c) % 64) :: b64encode rest
  | [a, b] =>
      [b64char ((a * 65536 + b * 256) / 262144),
        b64char ((a * 65536 + b * 256) / 4096 % 64),
        b64char ((a * 65536 + b * 256) / 64 % 64), '=']
  | [a] =>
      [b64char ((a * 65536) / 262144), b64char ((a * 65536) / 4096 % 64),
        '=', '=']
  | [] => []

/-- Index of a character in the base64 alphabet; proof-side inverse of
`b64char`. -/
def b64inv (c : Char) : ℕ := b64alphabet.indexOf c

/-- Proof-side base64 decoder, a left inverse of `b64encode` used to
establish its injectivity. -/
def b64decode : List Char → List ℕ
  | c1 :: c2 :: c3 :: c4 :: rest =>
      if c4 = '=' then
        if c3 = '=' then
          [b64inv c1 * 4 + b64inv c2 / 16]
        else
          [(b64inv c1 * 262144 + b64inv c2 * 4096 + b64inv c3 * 64) / 65536,
            (b64inv c1 * 262144 + b64inv c2 * 4096 + b64inv c3 * 64)
              / 256 % 256]
      else
        (b64inv c1 * 262144 + b64inv c2 * 4096 + b64inv c3 * 64 + b64inv c4)
            / 65536 ::
          (b64inv c1 * 262144 + b64inv c2 * 4096 + b64inv c3 * 64 +
            b64inv c4) / 256 % 256 ::
          (b64inv c1 * 262144 + b64inv c2 * 4096 + b64inv c3 * 64 +
            b64inv c4) % 256 :: b64decode rest
  | _ => []

/-- Base64 ciphertext of the freshness token for timestamp `t`
(`fake_key.py` steps 1-4). -/
def timestampCiphertext (cipher : List ℕ → List ℕ) (t : ℕ) : List Char :=
  b64encode (ecbBlocks cipher (pkcs7pad (decimalBytes t)))

/-- Embedding of `encrypt_timestamp()` (step 5): split the base64
string at `(len + 1) // 2` into the `custom-header` part and the
`bodyPart`. -/
def encrypt_timestamp (cipher : List ℕ → List ℕ) (t : ℕ) :
    List Char × List Char :=
  ((timestampCiphertext cipher t).take
      (((timestampCiphertext cipher t).length + 1) / 2),
    (timestampCiphertext cipher t).drop
      (((timestampCiphertext cipher t).length + 1) / 2))

theorem b64inv_b64char : ∀ g, g < 64 → b64inv (b64char g) = g := by
  decide

theorem b64char_ne_pad : ∀ g, g < 64 → b64char g ≠ '=' := by
  decide

theorem b64decode_two_pad (c1 c2 : Char) :
    b64decode [c1, c2, '=', '='] = [b64inv c1 * 4 + b64inv c2 / 16] := rfl

theorem b64decode_one_pad (c1 c2 c3 : Char) (h3 : c3 ≠ '=') :
    b64decode [c1, c2, c3, '='] =
      [(b64inv c1 * 262144 + b64inv c2 * 4096 + b64inv c3 * 64) / 65536,
        (b64inv c1 * 262144 + b64inv c2 * 4096 + b64inv c3 * 64)
          / 256 % 256] := by
  simp only [b64decode]
  rw [if_pos trivial, if_neg h3]

theorem b64decode_full (c1 c2 c3 c4 : Char) (rest : List Char)
    (h4 : c4 ≠ '=') :
    b64decode (c1 :: c2 :: c3 :: c4 :: rest) =
      (b64inv c1 * 262144 + b64inv c2 * 4096 + b64inv c3 * 64 + b64inv c4)
          / 65536 ::
        (b64inv c1 * 262144 + b64inv c2 * 4096 + b64inv c3 * 64 +
          b64inv c4) / 256 % 256 ::
        (b64inv c1 * 262144 + b64inv c2 * 4096 + b64inv c3 * 64 +
          b64inv c4) % 256 :: b64decode rest := by
  simp only [b64decode]
  rw [if_neg h4]

/-- `b64decode` undoes `b64encode` on byte lists. -/
theorem b64decode_encode :
    ∀ xs : List ℕ, (∀ x ∈ xs, x < 256) →
      b64decode (b64encode xs) = xs := by
  have aux : ∀ n (xs : List ℕ), xs.length ≤ n → (∀ x ∈ xs, x < 256) →
      b64decode (b64encode xs) = xs := by
    intro n
    induction n with
    | zero =>
        intro xs hlen _
        have : xs = [] := List.length_eq_zero.mp (by omega)
        subst this
        rfl
    | succ k ih =>
        intro xs hlen hb
        cases xs with
        | nil => rfl
        | cons a xs1 =>
            have ha : a < 256 := hb a (by simp)
            cases xs1 with
            | nil =>
                show b64decode (b64encode [a]) = [a]
                rw [show b64encode [a] = [b64char (a * 65536 / 262144),
                  b64char (a * 65536 / 4096 % 64), '=', '='] from rfl]
                rw [b64decode_two_pad]
                rw [b64inv_b64char _ (by omega), b64inv_b64char _ (by omega)]
                simp only [List.cons.injEq, and_true]
                omega
            | cons b xs2 =>
                have hbb : b < 256 := hb b (by simp)
                cases xs2 with
                | nil =>
                    show b64decode (b64encode [a, b]) = [a, b]
                    rw [show b64encode [a, b] =
                      [b64char ((a * 65536 + b * 256) / 262144),
                        b64char ((a * 65536 + b * 256) / 4096 % 64),
                        b64char ((a * 65536 + b * 256) / 64 % 64), '=']
                      from rfl]
                    rw [b64decode_one_pad _ _ _
                      (b64char_ne_pad _ (by omega))]
                    rw [b64inv_b64char _ (by omega),
                      b64inv_b64char _ (by omega),
                      b64inv_b64char _ (by omega)]
                    simp only [List.cons.injEq, and_true]
                    constructor
                    · omega
                    · omega
                | cons c rest =>
                    have hc : c < 256 := hb c (by simp)
                    have hrest : ∀ x ∈ rest, x < 256 := by
                      intro x hx
                      exact hb x (by simp [hx])
                    show b64decode (b64encode (a :: b :: c :: rest))
                        = a :: b :: c :: rest
                    rw [show b64encode (a :: b :: c :: rest) =
                      b64char ((a * 65536 + b * 256 + c) / 262144) ::
                        b64char ((a * 65536 + b * 256 + c) / 4096 % 64) ::
                        b64char ((a * 65536 + b * 256 + c) / 64 % 64) ::
                        b64char ((a * 65536 + b * 256 + c) % 64) ::
                        b64encode rest from rfl]
                    rw [b64decode_full _ _ _ _ _
                      (b64char_ne_pad _ (by omega))]
                    rw [b64inv_b64char _ (by omega),
                      b64inv_b64char _ (by omega),
                      b64inv_b64char _ (by omega),
                      b64inv_b64char _ (by omega)]
                    rw [ih rest (by simp at hlen; omega) hrest]
                    simp only [List.cons.injEq]
                    refine ⟨by omega, by omega, by omega, trivial⟩
  exact fun xs => aux xs.length xs le_rfl

/-- `b64encode` is injective on byte lists. -/
theorem b64encode_inj (xs ys : List ℕ) (hx : ∀ x ∈ xs, x < 256)
    (hy : ∀ y ∈ ys, y < 256) (h : b64encode xs = b64encode ys) :
    xs = ys := by
  have := congrArg b64decode h
  rwa [b64decode_encode xs hx, b64decode_encode ys hy] at this

theorem decimalBytes_leftInv (t : ℕ) :
    Nat.ofDigits 10 ((decimalBytes t).reverse.map (fun x => x - 48))
      = t := by
  unfold decimalBytes
  rw [List.reverse_reverse, List.map_map]
  have hcomp : ((fun x => x - 48) ∘ fun d => d + 48) = id := by
    funext x
    simp
  rw [hcomp, List.map_id]
  exact Nat.ofDigits_digits 10 t

theorem decimalBytes_inj (t1 t2 : ℕ) (h : decimalBytes t1 = decimalBytes t2) :
    t1 = t2 := by
  rw [← decimalBytes_leftInv t1, ← decimalBytes_leftInv t2, h]

theorem decimalBytes_bound (t : ℕ) : ∀ x ∈ decimalBytes t, x < 256 := by
  intro x hx
  unfold decimalBytes at hx
  rw [List.mem_reverse, List.mem_map] at hx
  obtain ⟨d, hd, rfl⟩ := hx
  have := Nat.digits_lt_base (by norm_num) hd
  omega

/-- A millisecond timestamp of the current era has 13 decimal digits. -/
theorem decimalBytes_length_13 (t : ℕ) (h1 : 10 ^ 12 ≤ t)
    (h2 : t < 10 ^ 13) : (decimalBytes t).length = 13 := by
  unfold decimalBytes
  rw [List.length_reverse, List.length_map]
  have ht0 : t ≠ 0 := by
    intro h0
    rw [h0] at h1
    norm_num at h1
  rw [Nat.digits_len 10 t (by norm_num) ht0]
  rw [Nat.log_eq_of_pow_le_of_lt_pow h1 (by norm_num; omega)]

theorem pkcs7pad_13 (msg : List ℕ) (h : msg.length = 13) :
    pkcs7pad msg = msg ++ [3, 3, 3] := by
  unfold pkcs7pad
  rw [h]
  rfl

theorem pkcs7pad_13_length (msg : List ℕ) (h : msg.length = 13) :
    (pkcs7pad msg).length = 16 := by
  rw [pkcs7pad_13 msg h]
  simp [h]

theorem pkcs7pad_13_bound (msg : List ℕ) (h : msg.length = 13)
    (hb : ∀ x ∈ msg, x < 256) : ∀ x ∈ pkcs7pad msg, x < 256 := by
  rw [pkcs7pad_13 msg h]
  intro x hx
  rcases List.mem_append.mp hx with h1 | h1
  · exact hb x h1
  · simp at h1
    omega

theorem pkcs7pad_13_inj (m1 m2 : List ℕ) (h1 : m1.length = 13)
    (h2 : m2.length = 13) (h : pkcs7pad m1 = pkcs7pad m2) : m1 = m2 := by
  rw [pkcs7pad_13 m1 h1, pkcs7pad_13 m2 h2] at h
  exact List.append_cancel_right h

theorem ecbBlocks_single (cipher : List ℕ → List ℕ) (p : List ℕ)
    (hp : p.length = 16) : ecbBlocks cipher p = cipher p := by
  rw [ecbBlocks]
  rw [dif_neg (by omega)]
  rw [List.take_of_length_le (by omega), List.drop_eq_nil_of_le (by omega)]
  rw [show ecbBlocks cipher [] = [] from by rw [ecbBlocks]; rfl]
  exact List.append_nil _

/-- C2.  For every block cipher satisfying the block-cipher contract
(length-preserving and injective on 16-byte blocks — as AES-128-ECB
under the fixed key is, being a permutation of the block space):
the `custom-header` part concatenated with the `bodyPart` reconstructs
the full base64 ciphertext; the header part has length
`ceil(len(ciphertext)/2) = (len + 1) / 2`; and two calls at different
millisecond timestamps produce different ciphertexts. -/
theorem encrypt_timestamp_spec (cipher : List ℕ → List ℕ)
    (hinj : ∀ xs ys : List ℕ, xs.length = 16 → ys.length = 16 →
      (∀ x ∈ xs, x < 256) → (∀ y ∈ ys, y < 256) →
      cipher xs = cipher ys → xs = ys)
    (hbytes : ∀ xs : List ℕ, xs.length = 16 → (∀ x ∈ xs, x < 256) →
      ∀ y ∈ cipher xs, y < 256)
    (t1 t2 : ℕ) (ht1 : 10 ^ 12 ≤ t1) (ht1b : t1 < 10 ^ 13)
    (ht2 : 10 ^ 12 ≤ t2) (ht2b : t2 < 10 ^ 13) (hne : t1 ≠ t2) :
    (∀ t, (encrypt_timestamp cipher t).1 ++ (encrypt_timestamp cipher t).2
        = timestampCiphertext cipher t) ∧
    (∀ t, (encrypt_timestamp cipher t).1.length
        = ((timestampCiphertext cipher t).length + 1) / 2) ∧
    timestampCiphertext cipher t1 ≠ timestampCiphertext cipher t2 := by
  refine ⟨?_, ?_, ?_⟩
  · intro t
    exact List.take_append_drop _ _
  · intro t
    unfold encrypt_timestamp
    rw [List.length_take]
    omega
  · intro hcipher
    unfold timestampCiphertext at hcipher
    have hp1len : (pkcs7pad (decimalBytes t1)).length = 16 :=
      pkcs7pad_13_length _ (decimalBytes_length_13 t1 ht1 ht1b)
    have hp2len : (pkcs7pad (decimalBytes t2)).length = 16 :=
      pkcs7pad_13_length _ (decimalBytes_length_13 t2 ht2 ht2b)
    have hp1b : ∀ x ∈ pkcs7pad (decimalBytes t1), x < 256 :=
      pkcs7pad_13_bound _ (decimalBytes_length_13 t1 ht1 ht1b)
        (decimalBytes_bound t1)
    have hp2b : ∀ x ∈ pkcs7pad (decimalBytes t2), x < 256 :=
      pkcs7pad_13_bound _ (decimalBytes_length_13 t2 ht2 ht2b)
        (decimalBytes_bound t2)
    rw [ecbBlocks_single cipher _ hp1len, ecbBlocks_single cipher _ hp2len]
      at hcipher
    have hcc : cipher (pkcs7pad (decimalBytes t1))
        = cipher (pkcs7pad (decimalBytes t2)) :=
      b64encode_inj _ _ (hbytes _ hp1len hp1b) (hbytes _ hp2len hp2b)
        hcipher
    have hpp := hinj _ _ hp1len hp2len hp1b hp2b hcc
    have hdd := pkcs7pad_13_inj _ _ (decimalBytes_length_13 t1 ht1 ht1b)
      (decimalBytes_length_13 t2 ht2 ht2b) hpp
    exact hne (decimalBytes_inj t1 t2 hdd)

/-- Witness for `encrypt_timestamp_spec` with the identity block
cipher at the timestamps `10^12` and `10^12 + 1`. -/
theorem encrypt_timestamp_spec_witness :
    ((encrypt_timestamp (fun xs => xs) (10 ^ 12)).1 ++
        (encrypt_timestamp (fun xs => xs) (10 ^ 12)).2
      = timestampCiphertext (fun xs => xs) (10 ^ 12)) ∧
    timestampCiphertext (fun xs => xs) (10 ^ 12) ≠
      timestampCiphertext (fun xs => xs) (10 ^ 12 + 1) := by
  have h := encrypt_timestamp_spec (fun xs => xs)
    (fun _ _ _ _ _ _ hc => hc) (fun _ _ hb => hb)
    (10 ^ 12) (10 ^ 12 + 1) (by norm_num) (by norm_num) (by norm_num)
    (by norm_num) (by norm_num)
  exact ⟨h.1 (10 ^ 12), h.2.2⟩

end Run5
